import Mathlib

/-!
Verification of the formation-recognition system.

Shallow embedding of the parts of the code that the checked properties
talk about:

* rule priorities and pair evaluation (`src/models.py`, `src/rules.py`,
  `src/rule_manager.py`),
* the heading-interpolation core of `TargetTrack.interpolate` and
  `TargetTrack.finalize` (`src/tracker.py`),
* the version assignment of `TargetCache.cache_target_state` and the id
  extraction of `TargetCache.get_all_active_targets`
  (`src/cache/target_cache.py`, `src/cache/redis_client.py`),
* the run-decision of `SmartFormationEngine.recognize_incremental`
  (`src/formation_engine_smart.py`),
* the pending-set handling of `DataStreamService._do_recognize`
  (`src/stream_service.py`),
* the confidence aggregation of `FormationRecognitionEngine.recognize`
  and `_build_formations` (`src/formation_engine.py`).

Python floats are modelled by `ℚ` (all constants appearing in the checked
code paths are decimal literals, exact in `ℚ`).
-/

namespace FormationRec

/-! ### Rule priorities (src/models.py, class RulePriority) -/

/-- Rule priority levels, from `RulePriority` in `src/models.py`. -/
inductive RulePriority
  | CRITICAL
  | HIGH
  | MEDIUM
  | LOW
  | OPTIONAL
deriving DecidableEq, Repr

namespace RulePriority

/-- The numeric level of a priority (the enum values in `src/models.py`):
CRITICAL = 0, HIGH = 1, MEDIUM = 2, LOW = 3, OPTIONAL = 4. -/
def value : RulePriority → ℕ
  | .CRITICAL => 0
  | .HIGH => 1
  | .MEDIUM => 2
  | .LOW => 3
  | .OPTIONAL => 4

theorem value_eq_zero_iff (p : RulePriority) : p.value = 0 ↔ p = .CRITICAL := by
  cases p <;> simp [value]

end RulePriority

/-! ### Rule results and rules (src/rules.py)

`RuleManager.evaluate_pair` consumes a rule only through
`rule.enabled`, `rule.name`, `rule.priority` (for sorting and for the
weight accumulation) and through the `RuleResult` that `rule.evaluate(context)`
returns on the context being evaluated.  A `Rule` record below therefore
carries, next to the configured fields, the `RuleResult` its `evaluate`
produces on the (fixed) context under evaluation. -/

/-- `RuleResult` from `src/rules.py` (the `message`/`details` strings are not
used by any checked property and are omitted). -/
structure RuleResult where
  passed : Bool
  confidence : ℚ
  priority : RulePriority
deriving DecidableEq, Repr

/-- A rule as seen by `RuleManager.evaluate_pair` on a fixed context:
the configured fields of `BaseRule` (`src/rules.py`) plus the result its
`evaluate` returns on that context. -/
structure Rule where
  name : String
  enabled : Bool
  priority : RulePriority
  weight : ℚ
  result : RuleResult
deriving DecidableEq, Repr

/-- The break condition of the evaluation loop
(`src/rule_manager.py` line 123): a failing result of CRITICAL priority. -/
def breakCond (r : Rule) : Prop :=
  r.result.priority = RulePriority.CRITICAL ∧ r.result.passed = false

instance : DecidablePred breakCond := fun r => by
  unfold breakCond; infer_instance

/-- One entry of the `results` list built by `evaluate_pair`
(`src/rule_manager.py` lines 112-120; the message/details strings omitted). -/
structure EvalEntry where
  rule_name : String
  priority : RulePriority
  passed : Bool
  confidence : ℚ
deriving DecidableEq, Repr

/-- The `results.append(...)` record for a rule (`src/rule_manager.py`). -/
def toEntry (r : Rule) : EvalEntry :=
  ⟨r.name, r.priority, r.result.passed, r.result.confidence⟩

/-- The loop state of `evaluate_pair`: `results`, `critical_passed`,
`total_confidence`, `total_weight` (`src/rule_manager.py` lines 97-100). -/
structure LoopState where
  results : List EvalEntry
  critical_passed : Bool
  total_confidence : ℚ
  total_weight : ℕ
deriving DecidableEq, Repr

/-- The `for rule in sorted_rules` loop of `evaluate_pair`
(`src/rule_manager.py` lines 105-129): skip disabled rules, record the
result, break on a failing CRITICAL result, and accumulate
`confidence * priority.value` and `priority.value` over passing rules. -/
def evalLoop (acc : LoopState) : List Rule → LoopState
  | [] => acc
  | r :: rest =>
    if r.enabled = false then evalLoop acc rest
    else
      let acc1 : LoopState := { acc with results := acc.results ++ [toEntry r] }
      if breakCond r then { acc1 with critical_passed := false }
      else
        evalLoop
          { acc1 with
            total_confidence :=
              acc1.total_confidence +
                (if r.result.passed then r.result.confidence * (r.priority.value : ℚ) else 0),
            total_weight :=
              acc1.total_weight + (if r.result.passed then r.priority.value else 0) }
          rest

/-- `sorted(self.rules, key=lambda r: r.priority.value)`
(`src/rule_manager.py` line 103); Python `sorted` is a stable ascending
sort, as is `List.insertionSort` with this relation. -/
def sortRules (rules : List Rule) : List Rule :=
  rules.insertionSort (fun a b => a.priority.value ≤ b.priority.value)

/-- The aggregate result of `evaluate_pair` (`src/rule_manager.py`
lines 131-147; the `summary` counters are omitted). -/
structure PairEvaluation where
  passed : Bool
  confidence : ℚ
  results : List EvalEntry
  critical_failed : Bool
deriving DecidableEq, Repr

/-- `RuleManager.evaluate_pair` (`src/rule_manager.py` lines 91-150). -/
def evaluatePair (rules : List Rule) : PairEvaluation :=
  let o := evalLoop ⟨[], true, 0, 0⟩ (sortRules rules)
  let overall : ℚ :=
    if o.critical_passed = false then 0
    else if 0 < o.total_weight then o.total_confidence / ((max o.total_weight 1 : ℕ) : ℚ)
    else 0
  { passed := o.critical_passed && o.results.all (·.passed)
    confidence := overall
    results := o.results
    critical_failed := !o.critical_passed }

/-- Sum of `confidence * priority.value` over enabled passing rules. -/
def passingConfSum (rules : List Rule) : ℚ :=
  ((rules.filter fun r => r.enabled && r.result.passed).map
    fun r => r.result.confidence * (r.priority.value : ℚ)).sum

/-- Sum of `priority.value` over enabled passing rules. -/
def passingWeight (rules : List Rule) : ℕ :=
  ((rules.filter fun r => r.enabled && r.result.passed).map
    fun r => r.priority.value).sum

theorem passingConfSum_nil : passingConfSum [] = 0 := rfl

theorem passingWeight_nil : passingWeight [] = 0 := rfl

theorem passingConfSum_cons (r : Rule) (l : List Rule) :
    passingConfSum (r :: l) =
      (if r.enabled && r.result.passed then r.result.confidence * (r.priority.value : ℚ) else 0) +
        passingConfSum l := by
  by_cases h : (r.enabled && r.result.passed) = true <;>
    simp [passingConfSum, List.filter_cons, h]

theorem passingWeight_cons (r : Rule) (l : List Rule) :
    passingWeight (r :: l) =
      (if r.enabled && r.result.passed then r.priority.value else 0) + passingWeight l := by
  by_cases h : (r.enabled && r.result.passed) = true <;>
    simp [passingWeight, List.filter_cons, h]

/-- Running the evaluation loop over a prefix that contains no enabled rule
with a failing CRITICAL result just accumulates that prefix. -/
theorem evalLoop_append_no_break (l : List Rule) (acc : LoopState) (rest : List Rule)
    (h : ∀ r ∈ l, r.enabled = true → ¬ breakCond r) :
    evalLoop acc (l ++ rest) =
      evalLoop
        ⟨acc.results ++ (l.filter (·.enabled)).map toEntry,
         acc.critical_passed,
         acc.total_confidence + passingConfSum l,
         acc.total_weight + passingWeight l⟩ rest := by
  induction l generalizing acc with
  | nil => simp [passingConfSum, passingWeight]
  | cons r l ih =>
    have hrest : ∀ x ∈ l, x.enabled = true → ¬ breakCond x := fun x hx => h x (by simp [hx])
    by_cases he : r.enabled = true
    · have hnb : ¬ breakCond r := h r (by simp) he
      have step : evalLoop acc ((r :: l) ++ rest) =
          evalLoop
            { acc with
              results := acc.results ++ [toEntry r],
              total_confidence := acc.total_confidence +
                (if r.result.passed then r.result.confidence * (r.priority.value : ℚ) else 0),
              total_weight := acc.total_weight +
                (if r.result.passed then r.priority.value else 0) }
            (l ++ rest) := by
        simp [evalLoop, he, hnb]
      rw [step, ih _ hrest]
      congr 1
      simp [passingConfSum_cons, passingWeight_cons, he, List.filter_cons, add_assoc]
    · have he' : r.enabled = false := by simpa using he
      have step : evalLoop acc ((r :: l) ++ rest) = evalLoop acc (l ++ rest) := by
        simp [evalLoop, he']
      rw [step, ih _ hrest]
      congr 1
      simp [passingConfSum_cons, passingWeight_cons, he', List.filter_cons]

/-- The evaluation loop on a list with no enabled failing-CRITICAL rule:
no break happens, every enabled rule is recorded, and the totals are the
sums over enabled passing rules. -/
theorem evalLoop_no_break (l : List Rule) (acc : LoopState)
    (h : ∀ r ∈ l, r.enabled = true → ¬ breakCond r) :
    evalLoop acc l =
      ⟨acc.results ++ (l.filter (·.enabled)).map toEntry,
       acc.critical_passed,
       acc.total_confidence + passingConfSum l,
       acc.total_weight + passingWeight l⟩ := by
  have := evalLoop_append_no_break l acc [] h
  simpa [evalLoop] using this

/-- The evaluation loop breaks at the first enabled rule with a failing
CRITICAL result: the rules after it are not evaluated. -/
theorem evalLoop_break (pre : List Rule) (c : Rule) (post : List Rule) (acc : LoopState)
    (hpre : ∀ r ∈ pre, r.enabled = true → ¬ breakCond r)
    (hce : c.enabled = true) (hcb : breakCond c) :
    evalLoop acc (pre ++ c :: post) =
      ⟨acc.results ++ (pre.filter (·.enabled)).map toEntry ++ [toEntry c],
       false,
       acc.total_confidence + passingConfSum pre,
       acc.total_weight + passingWeight pre⟩ := by
  rw [evalLoop_append_no_break pre acc (c :: post) hpre, evalLoop]
  simp [hce, hcb]

/-- Splitting a list at the first element satisfying a predicate. -/
theorem exists_first_split {α : Type} (p : α → Prop) [DecidablePred p] {l : List α}
    (h : ∃ x ∈ l, p x) :
    ∃ pre c post, l = pre ++ c :: post ∧ p c ∧ ∀ y ∈ pre, ¬ p y := by
  induction l with
  | nil => simp at h
  | cons a l ih =>
    by_cases ha : p a
    · exact ⟨[], a, l, by simp, ha, by simp⟩
    · obtain ⟨x, hx, hpx⟩ := h
      rcases List.mem_cons.mp hx with rfl | hx'
      · exact absurd hpx ha
      · obtain ⟨pre, c, post, rfl, hc, hpre⟩ := ih ⟨x, hx', hpx⟩
        exact ⟨a :: pre, c, post, by simp, hc, by
          intro y hy
          rcases List.mem_cons.mp hy with rfl | hy'
          · exact ha
          · exact hpre y hy'⟩

/-- `sortRules` is a permutation of its input. -/
theorem sortRules_perm (rules : List Rule) : List.Perm (sortRules rules) rules :=
  List.perm_insertionSort _ rules

theorem mem_sortRules {r : Rule} {rules : List Rule} :
    r ∈ sortRules rules ↔ r ∈ rules :=
  (sortRules_perm rules).mem_iff

/-- `sortRules` sorts ascending by the numeric priority level. -/
theorem sortRules_sorted (rules : List Rule) :
    List.Sorted (fun a b : Rule => a.priority.value ≤ b.priority.value) (sortRules rules) := by
  haveI : IsTotal Rule (fun a b : Rule => a.priority.value ≤ b.priority.value) :=
    ⟨fun a b => Nat.le_total _ _⟩
  haveI : IsTrans Rule (fun a b : Rule => a.priority.value ≤ b.priority.value) :=
    ⟨fun _ _ _ h1 h2 => le_trans h1 h2⟩
  exact List.sorted_insertionSort _ rules

theorem passingConfSum_perm {l1 l2 : List Rule} (h : List.Perm l1 l2) :
    passingConfSum l1 = passingConfSum l2 :=
  ((h.filter _).map _).sum_eq

theorem passingWeight_perm {l1 l2 : List Rule} (h : List.Perm l1 l2) :
    passingWeight l1 = passingWeight l2 :=
  ((h.filter _).map _).sum_eq

/-! ### PlatformTypeRule (src/rules.py lines 400-453)

`PlatformTypeRule.evaluate` only reads the two tracks' platform-type
attributes (strings of the `PlatformType` enum, or absent), so it is
embedded as a function of those.  The decimal constants 1.2, 0.9, 0.8
are the exact rationals 6/5, 9/10, 4/5. -/

/-- `PlatformTypeRule.evaluate` from `src/rules.py`: forbidden pairs fail,
allowed pairs get confidence `1.2 * weight`, unknown types get `0.8`
(not multiplied by the weight), any other known pair gets `0.9 * weight`.
Pairs are compared in both orders. -/
def platformTypeRuleEval (allowed_pairs forbidden_pairs : List (String × String))
    (priority : RulePriority) (weight : ℚ) (enabled : Bool)
    (t1 t2 : Option String) : RuleResult :=
  if enabled = false then ⟨true, 1, priority⟩
  else
    match t1, t2 with
    | some a, some b =>
      let type_pair := (a, b)
      let reverse_pair := (b, a)
      if forbidden_pairs.any (fun f => type_pair = f ∨ reverse_pair = f) then
        ⟨false, 0, priority⟩
      else if allowed_pairs.any (fun al => type_pair = al ∨ reverse_pair = al) then
        ⟨true, 6/5 * weight, priority⟩
      else
        ⟨true, 9/10 * weight, priority⟩
    | _, _ => ⟨true, 4/5, priority⟩

/-- A `PlatformTypeRule` named "MixedTypes" with one allowed pair, priority
MEDIUM, weight 2, evaluated on a pair of targets whose platform types are
unknown (`target_type` absent): it passes with confidence 0.8, and the
weight 2 is not applied in this branch of the source. -/
def ptRuleUnknownTypes : Rule :=
  { name := "MixedTypes", enabled := true, priority := .MEDIUM, weight := 2,
    result := platformTypeRuleEval [("Fighter", "Bomber")] [] .MEDIUM 2 true none (some "Bomber") }

/-- A `PlatformTypeRule` named "MixedTypes" with allowed pair
(Fighter, Bomber), priority MEDIUM, weight 1, evaluated on a Fighter and a
Bomber: it passes with confidence `1.2 * 1 = 1.2`. -/
def ptRuleAllowedPair : Rule :=
  { name := "MixedTypes", enabled := true, priority := .MEDIUM, weight := 1,
    result :=
      platformTypeRuleEval [("Fighter", "Bomber")] [] .MEDIUM 1 true
        (some "Fighter") (some "Bomber") }

/-- The aggregate-confidence formula as the specification words it
(claim C3), written for comparison with the code's `evaluatePair`:
sum over passing rules of
`rule confidence * rule weight * priority value`, divided by the sum over
passing rules of `priority value`. -/
def specAggregateConfidence (rules : List Rule) : ℚ :=
  (((rules.filter fun r => r.enabled && r.result.passed).map
      fun r => r.result.confidence * r.weight * (r.priority.value : ℚ)).sum) /
    ((passingWeight rules : ℕ) : ℚ)

/-! ### Formation confidence aggregation (src/formation_engine.py)

In `recognize`, a retained pair's confidence is
`total_confidence / passed_count`, the mean of its passing
per-time-point `evaluate_pair` confidences (lines 233-246); in
`_build_formations` a component's confidence is `np.mean` of its internal
edge weights (lines 316-331).  Both are embedded as means of rational
lists. -/

/-- A retained pair's `avg_confidence` (src/formation_engine.py line 245):
the mean of the pair's passing evaluation confidences. -/
def pairAverageConfidence (passedConfs : List ℚ) : ℚ :=
  passedConfs.sum / (passedConfs.length : ℚ)

/-- A formation candidate's confidence (`np.mean` over its member-pair edge
weights, src/formation_engine.py lines 319-323). -/
def formationConfidence (edgeWeights : List ℚ) : ℚ :=
  edgeWeights.sum / (edgeWeights.length : ℚ)

/-! ### Claims C2, C3, C10 about `evaluate_pair` -/

/-- C2: for every rule context and every rule set in which every
CRITICAL-priority rule reports its own priority (true of every rule class
implemented in `src/rules.py`), if some enabled CRITICAL-priority rule fails,
then the aggregate result has `passed = false` and `confidence = 0`, and the
evaluation stops at the first failing CRITICAL rule in the
priority-ascending order: every evaluated rule before it passed, and the
rules after it do not appear in the results (they were not evaluated). -/
theorem evaluatePair_critical_fail_short_circuits (rules : List Rule)
    (hrep : ∀ r ∈ rules, r.priority = RulePriority.CRITICAL →
      r.result.priority = RulePriority.CRITICAL)
    (hex : ∃ r ∈ rules, r.enabled = true ∧ r.priority = RulePriority.CRITICAL ∧
      r.result.passed = false) :
    (evaluatePair rules).passed = false ∧ (evaluatePair rules).confidence = 0 ∧
      ∃ pre c post, sortRules rules = pre ++ c :: post ∧
        c.enabled = true ∧ c.priority = RulePriority.CRITICAL ∧ c.result.passed = false ∧
        (∀ y ∈ pre, y.enabled = true → y.result.passed = true) ∧
        (evaluatePair rules).results = (pre.filter (·.enabled)).map toEntry ++ [toEntry c] := by
  obtain ⟨r0, hr0mem, hr0e, hr0p, hr0f⟩ := hex
  have hr0s : r0 ∈ sortRules rules := mem_sortRules.mpr hr0mem
  have pr0 : r0.enabled = true ∧ breakCond r0 :=
    ⟨hr0e, hrep r0 hr0mem hr0p, hr0f⟩
  obtain ⟨pre, c, post, hsplit, hc, hpre⟩ :=
    exists_first_split (fun x => x.enabled = true ∧ breakCond x) ⟨r0, hr0s, pr0⟩
  have hpre' : ∀ y ∈ pre, y.enabled = true → ¬ breakCond y :=
    fun y hy he hb => hpre y hy ⟨he, hb⟩
  have hloop : evalLoop ⟨[], true, 0, 0⟩ (sortRules rules) =
      ⟨[] ++ (pre.filter (·.enabled)).map toEntry ++ [toEntry c], false,
       0 + passingConfSum pre, 0 + passingWeight pre⟩ := by
    rw [hsplit]
    exact evalLoop_break pre c post ⟨[], true, 0, 0⟩ hpre' hc.1 hc.2
  -- ordering facts from sortedness
  have hsorted := sortRules_sorted rules
  rw [hsplit] at hsorted
  unfold List.Sorted at hsorted
  obtain ⟨hpw1, hpw2, hpw3⟩ := List.pairwise_append.mp hsorted
  have hcpost : ∀ b ∈ post, c.priority.value ≤ b.priority.value :=
    (List.pairwise_cons.mp hpw2).1
  -- the known failing critical rule is c itself or comes after c
  have hr0cases : r0 = c ∨ r0 ∈ post := by
    have : r0 ∈ pre ++ c :: post := hsplit ▸ hr0s
    rcases List.mem_append.mp this with h | h
    · exact absurd pr0 (hpre r0 h)
    · rcases List.mem_cons.mp h with h' | h'
      · exact Or.inl h'
      · exact Or.inr h'
  have hcval : c.priority = RulePriority.CRITICAL := by
    rcases hr0cases with rfl | hmem
    · exact hr0p
    · have h1 : c.priority.value ≤ r0.priority.value := hcpost r0 hmem
      have h2 : r0.priority.value = 0 := by rw [hr0p]; rfl
      exact (RulePriority.value_eq_zero_iff c.priority).mp (by omega)
  have hprepass : ∀ y ∈ pre, y.enabled = true → y.result.passed = true := by
    intro y hy hye
    have hyv : y.priority.value ≤ c.priority.value :=
      hpw3 y hy c (List.mem_cons_self _ _)
    have hy0 : y.priority.value = 0 := by
      have : c.priority.value = 0 := by rw [hcval]; rfl
      omega
    have hyc : y.priority = RulePriority.CRITICAL :=
      (RulePriority.value_eq_zero_iff y.priority).mp hy0
    have hymem : y ∈ rules := mem_sortRules.mp (hsplit ▸ List.mem_append_left _ hy)
    have hyrp : y.result.priority = RulePriority.CRITICAL := hrep y hymem hyc
    have hnb : ¬ breakCond y := hpre' y hy hye
    by_contra hf
    exact hnb ⟨hyrp, by simpa using hf⟩
  refine ⟨?_, ?_, pre, c, post, hsplit, hc.1, hcval, hc.2.2, hprepass, ?_⟩
  · simp [evaluatePair, hloop]
  · simp [evaluatePair, hloop]
  · simp [evaluatePair, hloop]

/-- Witness for C2: a single enabled CRITICAL rule that fails (for instance a
`DistanceRule` whose targets are too far apart) short-circuits the
evaluation. -/
theorem evaluatePair_critical_fail_short_circuits_witness :
    (evaluatePair [⟨"TightDist", true, .CRITICAL, 1, ⟨false, 0, .CRITICAL⟩⟩]).passed = false ∧
      (evaluatePair [⟨"TightDist", true, .CRITICAL, 1, ⟨false, 0, .CRITICAL⟩⟩]).confidence = 0 := by
  have h := evaluatePair_critical_fail_short_circuits
    [⟨"TightDist", true, .CRITICAL, 1, ⟨false, 0, .CRITICAL⟩⟩]
    (by intro r hr; rw [List.mem_singleton] at hr; subst hr; intro _; rfl)
    ⟨⟨"TightDist", true, .CRITICAL, 1, ⟨false, 0, .CRITICAL⟩⟩, by simp, rfl, rfl, rfl⟩
  exact ⟨h.1, h.2.1⟩

/-- C3 (amended): when every rule reports its own priority and no enabled
CRITICAL rule fails, the aggregate confidence is the sum over enabled passing
rules of `reported confidence * priority value` divided by the sum of their
priority values when that sum is positive, and 0 otherwise.  The rule's
configured weight does not appear as a separate factor in the aggregation
(src/rule_manager.py line 128 multiplies only by `rule.priority.value`). -/
theorem evaluatePair_confidence_formula (rules : List Rule)
    (hrep : ∀ r ∈ rules, r.result.priority = r.priority)
    (hnc : ∀ r ∈ rules, r.enabled = true → r.priority = RulePriority.CRITICAL →
      r.result.passed = true) :
    (evaluatePair rules).confidence =
      if 0 < passingWeight rules then
        passingConfSum rules / ((passingWeight rules : ℕ) : ℚ)
      else 0 := by
  have hnb : ∀ r ∈ sortRules rules, r.enabled = true → ¬ breakCond r := by
    intro r hr he hb
    have hmem : r ∈ rules := mem_sortRules.mp hr
    obtain ⟨hb1, hb2⟩ := hb
    have hp : r.priority = RulePriority.CRITICAL := (hrep r hmem) ▸ hb1
    have := hnc r hmem he hp
    rw [this] at hb2
    exact absurd hb2 (by simp)
  have hloop := evalLoop_no_break (sortRules rules) ⟨[], true, 0, 0⟩ hnb
  have hcs : passingConfSum (sortRules rules) = passingConfSum rules :=
    passingConfSum_perm (sortRules_perm rules)
  have hws : passingWeight (sortRules rules) = passingWeight rules :=
    passingWeight_perm (sortRules_perm rules)
  simp only [evaluatePair, hloop, hcs, hws, zero_add]
  by_cases hw : 0 < passingWeight rules
  · have hmax : max (passingWeight rules) 1 = passingWeight rules :=
      Nat.max_eq_left hw
    simp [hw, hmax]
  · simp [hw]

/-- Witness for C3 (amended): a single enabled passing HIGH rule with
reported confidence 1/2 yields aggregate confidence (1/2 * 1) / 1 = 1/2. -/
theorem evaluatePair_confidence_formula_witness :
    (evaluatePair [⟨"TightAlt", true, .HIGH, 1, ⟨true, 1/2, .HIGH⟩⟩]).confidence =
      if 0 < passingWeight [⟨"TightAlt", true, .HIGH, 1, ⟨true, 1/2, .HIGH⟩⟩] then
        passingConfSum [⟨"TightAlt", true, .HIGH, 1, ⟨true, 1/2, .HIGH⟩⟩] /
          ((passingWeight [⟨"TightAlt", true, .HIGH, 1, ⟨true, 1/2, .HIGH⟩⟩] : ℕ) : ℚ)
      else 0 :=
  evaluatePair_confidence_formula [⟨"TightAlt", true, .HIGH, 1, ⟨true, 1/2, .HIGH⟩⟩]
    (by intro r hr; rw [List.mem_singleton] at hr; subst hr; rfl)
    (by intro r hr; rw [List.mem_singleton] at hr; subst hr; intro _ _; rfl)

/-- Counterexample to C3 as stated: a `PlatformTypeRule` with weight 2 and
priority MEDIUM evaluated on targets of unknown platform type passes with
reported confidence 0.8; the code aggregates `(0.8 * 2) / 2 = 0.8`, while the
claimed formula with the separate rule-weight factor gives
`(0.8 * 2 * 2) / 2 = 1.6`. -/
theorem evaluatePair_weight_factor_counterexample :
    (evaluatePair [ptRuleUnknownTypes]).confidence = 4/5 ∧
      specAggregateConfidence [ptRuleUnknownTypes] = 8/5 ∧
      (evaluatePair [ptRuleUnknownTypes]).confidence ≠
        specAggregateConfidence [ptRuleUnknownTypes] := by
  have h1 : (evaluatePair [ptRuleUnknownTypes]).confidence = 4/5 := by
    simp only [evaluatePair, sortRules, List.insertionSort, List.orderedInsert,
      evalLoop, ptRuleUnknownTypes, platformTypeRuleEval, breakCond, toEntry,
      RulePriority.value]
    norm_num
  have h2 : specAggregateConfidence [ptRuleUnknownTypes] = 8/5 := by
    simp only [specAggregateConfidence, passingWeight, ptRuleUnknownTypes,
      platformTypeRuleEval, List.filter, List.map, RulePriority.value]
    norm_num
  refine ⟨h1, h2, by rw [h1, h2]; norm_num⟩

/-- C10: if no enabled rule fails and every enabled rule has priority
CRITICAL (numeric level 0) -- in particular when the rule list is empty or
every rule is disabled -- `evaluate_pair` returns aggregate `passed = true`
with aggregate confidence exactly 0. -/
theorem evaluatePair_all_critical_pass_confidence_zero (rules : List Rule)
    (hpass : ∀ r ∈ rules, r.enabled = true → r.result.passed = true)
    (hcrit : ∀ r ∈ rules, r.enabled = true → r.priority = RulePriority.CRITICAL) :
    (evaluatePair rules).passed = true ∧ (evaluatePair rules).confidence = 0 := by
  have hs : ∀ r ∈ sortRules rules, r.enabled = true → r.result.passed = true :=
    fun r hr => hpass r (mem_sortRules.mp hr)
  have hsc : ∀ r ∈ sortRules rules, r.enabled = true → r.priority = RulePriority.CRITICAL :=
    fun r hr => hcrit r (mem_sortRules.mp hr)
  have hnb : ∀ r ∈ sortRules rules, r.enabled = true → ¬ breakCond r := by
    intro r hr he hb
    obtain ⟨hb1, hb2⟩ := hb
    have := hs r hr he
    rw [this] at hb2
    exact absurd hb2 (by simp)
  have hloop := evalLoop_no_break (sortRules rules) ⟨[], true, 0, 0⟩ hnb
  have hw : passingWeight (sortRules rules) = 0 := by
    unfold passingWeight
    apply List.sum_eq_zero
    intro x hx
    obtain ⟨r, hrmem, rfl⟩ := List.mem_map.mp hx
    have hmem := List.mem_filter.mp hrmem
    have he : r.enabled = true := by
      have h2 := hmem.2
      simp only [Bool.and_eq_true] at h2
      exact h2.1
    have := hsc r hmem.1 he
    rw [this]
    rfl
  constructor
  · simp only [evaluatePair, hloop]
    simp only [Bool.true_and, List.nil_append]
    rw [List.all_eq_true]
    intro e he
    obtain ⟨r, hrmem, rfl⟩ := List.mem_map.mp he
    have hmem := List.mem_filter.mp hrmem
    exact hs r hmem.1 (by simpa using hmem.2)
  · simp [evaluatePair, hloop, hw]

/-- Witness for C10: a single enabled passing CRITICAL rule gives
`passed = true` and confidence 0. -/
theorem evaluatePair_all_critical_pass_confidence_zero_witness :
    (evaluatePair [⟨"HostileCheck", true, .CRITICAL, 1, ⟨true, 1, .CRITICAL⟩⟩]).passed = true ∧
      (evaluatePair [⟨"HostileCheck", true, .CRITICAL, 1, ⟨true, 1, .CRITICAL⟩⟩]).confidence = 0 :=
  evaluatePair_all_critical_pass_confidence_zero
    [⟨"HostileCheck", true, .CRITICAL, 1, ⟨true, 1, .CRITICAL⟩⟩]
    (by intro r hr; rw [List.mem_singleton] at hr; subst hr; intro _; rfl)
    (by intro r hr; rw [List.mem_singleton] at hr; subst hr; intro _; rfl)

/-- C7: a recognition run whose only enabled rule is a `PlatformTypeRule`
with an allowed pair (weight 1, priority MEDIUM) produces a Formation with
confidence 1.2: the pair evaluation passes with aggregate confidence
`(1.2 * 2) / 2 = 1.2`, the retained pair's average confidence is 1.2, and
the connected component's mean edge weight -- stored unclamped as
`Formation.confidence` by `_create_formation` -- is 1.2, outside [0, 1].
This contradicts the declared range of `Formation.confidence`
(`src/models.py` line 161). -/
theorem formation_confidence_exceeds_one :
    (evaluatePair [ptRuleAllowedPair]).passed = true ∧
      (evaluatePair [ptRuleAllowedPair]).confidence = 6/5 ∧
      pairAverageConfidence [(evaluatePair [ptRuleAllowedPair]).confidence] = 6/5 ∧
      formationConfidence
        [pairAverageConfidence [(evaluatePair [ptRuleAllowedPair]).confidence]] = 6/5 ∧
      ¬ formationConfidence
          [pairAverageConfidence [(evaluatePair [ptRuleAllowedPair]).confidence]] ≤ 1 := by
  have h1 : (evaluatePair [ptRuleAllowedPair]).passed = true := by
    simp only [evaluatePair, sortRules, List.insertionSort, List.orderedInsert,
      evalLoop, ptRuleAllowedPair, platformTypeRuleEval, breakCond, toEntry,
      RulePriority.value]
    norm_num
  have h2 : (evaluatePair [ptRuleAllowedPair]).confidence = 6/5 := by
    simp only [evaluatePair, sortRules, List.insertionSort, List.orderedInsert,
      evalLoop, ptRuleAllowedPair, platformTypeRuleEval, breakCond, toEntry,
      RulePriority.value]
    norm_num
  refine ⟨h1, h2, ?_, ?_, ?_⟩ <;>
    (rw [h2]; norm_num [pairAverageConfidence, formationConfidence])

/-! ### Claim C1: cache version assignment
(src/cache/target_cache.py, `cache_target_state`)

`cache_target_state` assigns
`new_version = int(datetime.now().timestamp() * 1000)` (line 88), the
millisecond wall-clock reading at the time of the put, and stores it with
the state hash.  The wall-clock reading is an explicit parameter here. -/

/-- A stored cache entry: the state hash and version
(`_hash` and `_version` fields written by `cache_target_state`). -/
structure CachedTarget where
  state_hash : String
  version : ℤ
deriving DecidableEq, Repr

/-- The version-assigning core of `TargetCache.cache_target_state`
(src/cache/target_cache.py lines 74-122): the new version is the
millisecond wall-clock reading `now_ms`; the entry (hash and version) is
stored under the target id, and `is_update` reports whether an old entry
existed.  Returns the updated store, the `is_update` flag and the assigned
version. -/
def cacheTargetState (store : List (String × CachedTarget)) (target_id : String)
    (state_hash : String) (now_ms : ℤ) :
    List (String × CachedTarget) × Bool × ℤ :=
  let new_version := now_ms
  let is_update := (store.lookup target_id).isSome
  ((target_id, ⟨state_hash, new_version⟩) :: store.filter (fun kv => kv.1 ≠ target_id),
   is_update, new_version)

/-- Run a sequence of puts (target id, state hash, wall-clock milliseconds)
through `cacheTargetState`, collecting the assigned versions. -/
def runPuts : List (String × String × ℤ) → List (String × CachedTarget) → List ℤ
  | [], _ => []
  | (tid, h, t) :: rest, store =>
    let out := cacheTargetState store tid h t
    out.2.2 :: runPuts rest out.1

/-- C1 (code behaviour at the failing input): two puts for target "T1"
landing on the same wall-clock millisecond are assigned equal versions, so
the versions assigned to the target are not strictly monotonically
increasing, contradicting the required per-target strict monotonicity. -/
theorem cache_version_same_millisecond_not_increasing :
    runPuts [("T1", "h1", 1700000000000), ("T1", "h2", 1700000000000)] [] =
        [1700000000000, 1700000000000] ∧
      ¬ List.Chain' (fun a b : ℤ => a < b)
          (runPuts [("T1", "h1", 1700000000000), ("T1", "h2", 1700000000000)] []) := by
  constructor
  · rfl
  · intro hchain
    rw [show runPuts [("T1", "h1", 1700000000000), ("T1", "h2", 1700000000000)] [] =
        [(1700000000000 : ℤ), 1700000000000] from rfl] at hchain
    simp [List.chain'_cons] at hchain

/-! ### Claim C4: `get_all_active_targets`
(src/cache/target_cache.py lines 316-346, src/cache/redis_client.py)

Redis keys are modelled as their colon-separated segment lists.
`RedisClient._make_key(*parts)` returns `"formation:" + ":".join(parts)`
(`KEY_PREFIX = "formation:"`), whose split on ":" is the segment list
`"formation" :: parts` (target ids contain no colon).  The scan in
`get_all_active_targets` uses the pattern `_make_key("target", "*")`, which
matches both the state key `formation:target:<id>` and the version key
`formation:target:<id>:version`. -/

/-- `RedisClient._make_key` as a segment list: the `KEY_PREFIX`
"formation:" contributes the leading segment. -/
def makeKey (parts : List String) : List String :=
  "formation" :: parts

/-- The state key for a target (`TargetCache._make_target_key`). -/
def targetKey (target_id : String) : List String :=
  makeKey ["target", target_id]

/-- The version key for a target (`TargetCache._make_version_key`). -/
def versionKey (target_id : String) : List String :=
  makeKey ["target", target_id, "version"]

/-- The keys returned by the scan with pattern `formation:target:*` when the
cache holds exactly the given target ids: each target contributes its state
key and its version key. -/
def scanTargetKeys (ids : List String) : List (List String) :=
  ids.map targetKey ++ ids.map versionKey

/-- The id-extraction loop of `get_all_active_targets`
(src/cache/target_cache.py lines 336-342): for each key split into `parts`,
if there are at least 3 parts and the last is not "version", collect
`parts[-2]`; finally deduplicate (`list(set(...))`). -/
def extractTargetIds (keys : List (List String)) : List String :=
  (keys.filterMap fun parts =>
    if 3 ≤ parts.length ∧ parts.getLast? ≠ some "version" then
      parts.get? (parts.length - 2)
    else none).dedup

/-- `TargetCache.get_all_active_targets` on a cache holding exactly the
given target ids. -/
def getAllActiveTargets (ids : List String) : List String :=
  extractTargetIds (scanTargetKeys ids)

/-- C4 (code behaviour at the failing input): with a single stored target
"T1" the scan sees the keys `formation:target:T1` and
`formation:target:T1:version`; the version key is skipped, and from the
state key the loop collects `parts[-2]`, which is the literal segment
"target", not the target id.  So the result is `["target"]` and the stored
id "T1" is not returned. -/
theorem get_all_active_targets_returns_literal :
    getAllActiveTargets ["T1"] = ["target"] ∧ "T1" ∉ getAllActiveTargets ["T1"] := by
  constructor
  · rfl
  · intro h
    rw [show getAllActiveTargets ["T1"] = ["target"] from rfl] at h
    simp at h

/-! ### Claim C6: heading interpolation
(src/tracker.py, `TargetTrack.interpolate`, lines 192-194)

The heading computation of `interpolate` is
`heading_diff = (after.heading - before.heading + 180) % 360 - 180` and
`heading = (before.heading + heading_diff * ratio) % 360`.  Python's `%`
on floats takes the sign of the divisor: `x % m = x - m * floor(x / m)`. -/

/-- Python's float modulus `x % m = x - m * floor(x / m)`, over `ℚ`. -/
def pymod (x m : ℚ) : ℚ := x - m * ⌊x / m⌋

/-- `heading_diff` of `TargetTrack.interpolate` (src/tracker.py line 193). -/
def headingDiffCode (before after : ℚ) : ℚ :=
  pymod (after - before + 180) 360 - 180

/-- The interpolated heading of `TargetTrack.interpolate`
(src/tracker.py line 194). -/
def interpolateHeading (before after f : ℚ) : ℚ :=
  pymod (before + headingDiffCode before after * f) 360

/-- Modelled from the spec's words (claim C6), for comparison with the
code: the signed angular difference normalised to the interval
(-180, 180], scaled by the fraction, added to the start heading and
reduced modulo 360. -/
def specHeadingDiff (before after : ℚ) : ℚ :=
  180 - pymod (180 - (after - before)) 360

/-- Modelled from the spec's words (claim C6): shortest-arc interpolation
with the difference normalised to (-180, 180]. -/
def specShortestArcInterp (before after f : ℚ) : ℚ :=
  pymod (before + specHeadingDiff before after * f) 360

theorem pymod_eq_mul_fract {m : ℚ} (hm : m ≠ 0) (x : ℚ) :
    pymod x m = m * Int.fract (x / m) := by
  unfold pymod Int.fract
  field_simp

theorem pymod_nonneg {m : ℚ} (hm : 0 < m) (x : ℚ) : 0 ≤ pymod x m := by
  rw [pymod_eq_mul_fract hm.ne' x]
  exact mul_nonneg hm.le (Int.fract_nonneg _)

theorem pymod_lt {m : ℚ} (hm : 0 < m) (x : ℚ) : pymod x m < m := by
  rw [pymod_eq_mul_fract hm.ne' x]
  calc m * Int.fract (x / m) < m * 1 :=
        (mul_lt_mul_left hm).mpr (Int.fract_lt_one _)
    _ = m := mul_one m

/-- Evaluation helper: if `x` lies in `[k*m, (k+1)*m)` then
`pymod x m = x - m * k`. -/
theorem pymod_eq_of_bounds {x m : ℚ} {k : ℤ} (hm : 0 < m)
    (h1 : (k : ℚ) * m ≤ x) (h2 : x < ((k : ℚ) + 1) * m) :
    pymod x m = x - m * k := by
  have hfloor : ⌊x / m⌋ = k := by
    rw [Int.floor_eq_iff]
    constructor
    · rw [le_div_iff₀ hm]
      exact h1
    · rw [div_lt_iff₀ hm]
      exact h2
  unfold pymod
  rw [hfloor]

/-- C6 counterexample: for the in-range headings h₁ = 0, h₂ = 180 and
fraction 1/2, the code normalises the difference to -180 (its normalisation
interval is [-180, 180), closed below) and returns 270, while the claimed
shortest-arc interpolation with the difference normalised to (-180, 180]
returns 90. -/
theorem interpolate_heading_antipodal_counterexample :
    interpolateHeading 0 180 (1/2) = 270 ∧
      specShortestArcInterp 0 180 (1/2) = 90 ∧
      interpolateHeading 0 180 (1/2) ≠ specShortestArcInterp 0 180 (1/2) := by
  have hd : headingDiffCode 0 180 = -180 := by
    unfold headingDiffCode
    rw [show ((180 : ℚ) - 0 + 180) = 360 by norm_num,
      pymod_eq_of_bounds (k := 1) (by norm_num) (by norm_num) (by norm_num)]
    norm_num
  have h1 : interpolateHeading 0 180 (1/2) = 270 := by
    unfold interpolateHeading
    rw [hd, show ((0 : ℚ) + -180 * (1/2)) = -90 by norm_num,
      pymod_eq_of_bounds (k := -1) (by norm_num) (by norm_num) (by norm_num)]
    norm_num
  have hsd : specHeadingDiff 0 180 = 180 := by
    unfold specHeadingDiff
    rw [show ((180 : ℚ) - (180 - 0)) = 0 by norm_num,
      pymod_eq_of_bounds (k := 0) (by norm_num) (by norm_num) (by norm_num)]
    norm_num
  have h2 : specShortestArcInterp 0 180 (1/2) = 90 := by
    unfold specShortestArcInterp
    rw [hsd, show ((0 : ℚ) + 180 * (1/2)) = 90 by norm_num,
      pymod_eq_of_bounds (k := 0) (by norm_num) (by norm_num) (by norm_num)]
    norm_num
  exact ⟨h1, h2, by rw [h1, h2]; norm_num⟩

/-- C6 (amended): the interpolated heading always lies in [0, 360); the
signed difference used by the code is congruent to h₂ - h₁ modulo 360 and
normalised to the half-open interval [-180, 180) (closed below, open
above, so a 180-degree tie interpolates through the descending arc); and
interpolating between 350 and 10 degrees at fraction 1/2 gives 0. -/
theorem interpolate_heading_range_and_shortest_arc :
    (∀ b a f : ℚ, 0 ≤ interpolateHeading b a f ∧ interpolateHeading b a f < 360) ∧
      (∀ b a : ℚ, -180 ≤ headingDiffCode b a ∧ headingDiffCode b a < 180 ∧
        ∃ k : ℤ, headingDiffCode b a = a - b + 360 * k) ∧
      interpolateHeading 350 10 (1/2) = 0 := by
  refine ⟨fun b a f => ⟨pymod_nonneg (by norm_num) _, pymod_lt (by norm_num) _⟩,
    fun b a => ⟨?_, ?_, ?_⟩, ?_⟩
  · unfold headingDiffCode
    have := pymod_nonneg (m := 360) (by norm_num) (a - b + 180)
    linarith
  · unfold headingDiffCode
    have := pymod_lt (m := 360) (by norm_num) (a - b + 180)
    linarith
  · refine ⟨-⌊(a - b + 180) / 360⌋, ?_⟩
    unfold headingDiffCode pymod
    push_cast
    ring
  · have hd : headingDiffCode 350 10 = 20 := by
      unfold headingDiffCode
      rw [show ((10 : ℚ) - 350 + 180) = -160 by norm_num,
        pymod_eq_of_bounds (k := -1) (by norm_num) (by norm_num) (by norm_num)]
      norm_num
    unfold interpolateHeading
    rw [hd, show ((350 : ℚ) + 20 * (1/2)) = 360 by norm_num,
      pymod_eq_of_bounds (k := 1) (by norm_num) (by norm_num) (by norm_num)]
    norm_num

/-! ### Claim C9: `TargetTrack.finalize` (src/tracker.py lines 84-94)

Only the `segments` list and the open `current_segment` are relevant:
finalize appends `current_segment` to `segments` when
`len(self.current_segment) > 1` and always empties `current_segment`.
Feature computation and cache synchronisation touch neither field and are
omitted.  The state type is a parameter since finalize never inspects the
states themselves. -/

/-- The segment bookkeeping of `TargetTrack`: the sealed `segments` and the
open `current_segment` (src/tracker.py lines 27-28). -/
structure TargetTrack (α : Type) where
  segments : List (List α)
  current_segment : List α
deriving DecidableEq, Repr

/-- `TargetTrack.finalize` (src/tracker.py lines 84-94): seal the open
segment only when it holds more than one state; empty it in either case. -/
def finalize {α : Type} (t : TargetTrack α) : TargetTrack α :=
  if 1 < t.current_segment.length then
    { segments := t.segments ++ [t.current_segment], current_segment := [] }
  else
    { t with current_segment := [] }

/-- C9 counterexample: a track whose open segment holds exactly one state.
`finalize` does not append the segment (the claim says it is appended) and
empties the open segment, so the observed state is discarded. -/
theorem finalize_single_state_counterexample :
    (finalize (⟨[], [(0 : ℕ)]⟩ : TargetTrack ℕ)).segments = [] ∧
      (finalize (⟨[], [(0 : ℕ)]⟩ : TargetTrack ℕ)).segments ≠ [[0]] ∧
      (finalize (⟨[], [(0 : ℕ)]⟩ : TargetTrack ℕ)).current_segment = [] := by
  refine ⟨rfl, ?_, rfl⟩
  intro h
  rw [show (finalize (⟨[], [(0 : ℕ)]⟩ : TargetTrack ℕ)).segments = [] from rfl] at h
  simp at h

/-- C9 (amended): `finalize` always empties the open segment; it seals the
open segment (appends it to the segment list) exactly when the segment
holds at least two states, and drops it (leaving the segment list
unchanged) when it holds at most one state. -/
theorem finalize_seals_iff_two_states {α : Type} (t : TargetTrack α) :
    (finalize t).current_segment = [] ∧
      (2 ≤ t.current_segment.length →
        (finalize t).segments = t.segments ++ [t.current_segment]) ∧
      (t.current_segment.length ≤ 1 → (finalize t).segments = t.segments) := by
  unfold finalize
  by_cases h : 1 < t.current_segment.length
  · rw [if_pos h]
    exact ⟨rfl, fun _ => rfl, fun h' => absurd h (by omega)⟩
  · rw [if_neg h]
    exact ⟨rfl, fun h' => absurd h' (by omega), fun _ => rfl⟩

/-- Witness for C9 (amended): a two-state open segment is sealed and the
open segment becomes empty. -/
theorem finalize_seals_iff_two_states_witness :
    (finalize (⟨[[1, 2]], [5, 6]⟩ : TargetTrack ℕ)).segments = [[1, 2], [5, 6]] ∧
      (finalize (⟨[[1, 2]], [5, 6]⟩ : TargetTrack ℕ)).current_segment = [] := by
  have h := finalize_seals_iff_two_states (⟨[[1, 2]], [5, 6]⟩ : TargetTrack ℕ)
  exact ⟨h.2.1 (by decide), h.1⟩

/-! ### Claim C5: `SmartFormationEngine.recognize_incremental`
(src/formation_engine_smart.py lines 82-129)

The run decision reads `force`, the wall clock, `last_recognition_time`
and `changed_targets`; `min_recognition_interval` defaults to 5 seconds.
Times are wall-clock seconds in `ℚ`.  When the run is honoured the
recognition result (a parameter here) is returned, `last_recognition_time`
is set to now, and the changed-target set is cleared; otherwise the empty
list is returned and the state is unchanged. -/

/-- The mutable state read by `recognize_incremental`
(src/formation_engine_smart.py lines 31-33). -/
structure SmartEngineState where
  last_recognition_time : Option ℚ
  changed_targets : List String
deriving DecidableEq, Repr

theorem not_isEmpty_iff {α : Type} (l : List α) : (!l.isEmpty) = true ↔ l ≠ [] := by
  cases l <;> simp

/-- The run-decision of `recognize_incremental`
(src/formation_engine_smart.py lines 96-110): run iff forced, or a last-run
time exists and at least `min_interval` elapsed since it, or the
changed-target set is non-empty.  (The source writes this as successive
`if not should_recognize` tests, which is the same disjunction.) -/
def shouldRecognize (force : Bool) (now : ℚ) (last : Option ℚ)
    (changed : List String) (min_interval : ℚ) : Bool :=
  force ||
    (match last with
      | some t => decide (min_interval ≤ now - t)
      | none => false) ||
    !changed.isEmpty

/-- Modelled from the spec's words (claim C5), for comparison with the
code: honoured iff forced, or lastRun is null, or at least MIN_INTERVAL
elapsed since lastRun, or the pending set is non-empty. -/
def specHonoured (force : Bool) (now : ℚ) (last : Option ℚ)
    (changed : List String) (min_interval : ℚ) : Bool :=
  force || last.isNone ||
    (match last with
      | some t => decide (min_interval ≤ now - t)
      | none => false) ||
    !changed.isEmpty

/-- `recognize_incremental` (src/formation_engine_smart.py lines 82-129):
`recognized` stands for the result of the full recognition run performed
when the request is honoured. -/
def recognizeIncremental (st : SmartEngineState) (force : Bool) (now : ℚ)
    (min_interval : ℚ) (recognized : List ℕ) : List ℕ × SmartEngineState :=
  if shouldRecognize force now st.last_recognition_time st.changed_targets min_interval then
    (recognized, ⟨some now, []⟩)
  else
    ([], st)

/-- C5 counterexample: an unforced request with `last_recognition_time`
null and an empty changed-target set.  The claim says it is honoured
(lastRun is null); the code does not honour it -- the interval branch
requires a non-null last-run time -- and returns the empty list without
running recognition. -/
theorem recognize_incremental_null_lastrun_counterexample :
    specHonoured false 0 none [] 5 = true ∧
      shouldRecognize false 0 none [] 5 = false ∧
      (recognizeIncremental ⟨none, []⟩ false 0 5 [1]).1 = [] ∧
      (recognizeIncremental ⟨none, []⟩ false 0 5 [1]).2 = ⟨none, []⟩ := by
  refine ⟨rfl, rfl, rfl, rfl⟩

/-- C5 (amended): a request is honoured iff it is forced, or the last-run
timestamp is non-null and at least `min_interval` has elapsed since it, or
the pending changed-target set is non-empty; when not honoured the call
returns the empty list and leaves the engine state unchanged. -/
theorem recognize_incremental_honoured_iff (st : SmartEngineState) (force : Bool)
    (now min_interval : ℚ) (recognized : List ℕ) :
    (shouldRecognize force now st.last_recognition_time st.changed_targets min_interval = true ↔
      force = true ∨
        (∃ t, st.last_recognition_time = some t ∧ min_interval ≤ now - t) ∨
        st.changed_targets ≠ []) ∧
      (shouldRecognize force now st.last_recognition_time st.changed_targets min_interval =
          false →
        (recognizeIncremental st force now min_interval recognized).1 = [] ∧
          (recognizeIncremental st force now min_interval recognized).2 = st) := by
  constructor
  · unfold shouldRecognize
    cases hlast : st.last_recognition_time with
    | none =>
      simp only [Bool.or_eq_true, decide_eq_true_eq, not_isEmpty_iff]
      constructor
      · rintro ((hf | hf) | hch)
        · exact Or.inl hf
        · exact absurd hf (by simp)
        · exact Or.inr (Or.inr hch)
      · rintro (hf | ⟨t, ht, _⟩ | hch)
        · exact Or.inl (Or.inl hf)
        · exact absurd ht (by simp)
        · exact Or.inr hch
    | some t =>
      simp only [Bool.or_eq_true, decide_eq_true_eq, not_isEmpty_iff]
      constructor
      · rintro ((hf | hint) | hch)
        · exact Or.inl hf
        · exact Or.inr (Or.inl ⟨t, rfl, hint⟩)
        · exact Or.inr (Or.inr hch)
      · rintro (hf | ⟨t', ht', hint⟩ | hch)
        · exact Or.inl (Or.inl hf)
        · injection ht' with h
          subst h
          exact Or.inl (Or.inr hint)
        · exact Or.inr hch
  · intro hno
    unfold recognizeIncremental
    rw [hno]
    exact ⟨rfl, rfl⟩

/-- Witness for C5 (amended): an unforced request 3 seconds after the last
run (interval 5 s) with nothing pending is not honoured: it returns the
empty list and leaves the state unchanged. -/
theorem recognize_incremental_honoured_iff_witness :
    (recognizeIncremental ⟨some 0, []⟩ false 3 5 [7]).1 = [] ∧
      (recognizeIncremental ⟨some 0, []⟩ false 3 5 [7]).2 = ⟨some 0, []⟩ :=
  (recognize_incremental_honoured_iff ⟨some 0, []⟩ false 3 5 [7]).2
    (by norm_num [shouldRecognize])

/-! ### Claim C8: `DataStreamService._do_recognize`
(src/stream_service.py lines 185-244)

`_do_recognize` snapshots and clears the pending target set under the
lock, then runs the body (cache reads, the recognition itself, storing and
notifying) inside a try/except.  `body` stands for that try-block: it
either produces the stored formations (or `None` when fewer than two
target states were found) or raises, modelled by `Except.error`.  On error
the taken ids are put back into the pending set and the method returns
`None`; the error is logged, not re-raised. -/

/-- The state of `DataStreamService` read by `_do_recognize`:
the pending target-id set (src/stream_service.py line 35). -/
structure StreamState where
  pending : Finset String
deriving DecidableEq

/-- `DataStreamService._do_recognize` (src/stream_service.py lines
185-244): empty pending set returns immediately; otherwise the pending set
is snapshotted into `taken` and cleared, the body runs on the taken ids,
and on failure the taken ids are re-added to the pending set and `None` is
returned in place of the error. -/
def doRecognize (st : StreamState)
    (body : Finset String → Except String (Option (List ℕ))) :
    StreamState × Except String (Option (List ℕ)) :=
  if st.pending = ∅ then (st, Except.ok none)
  else
    let taken := st.pending
    let cleared : StreamState := ⟨∅⟩
    match body taken with
    | Except.ok r => (cleared, Except.ok r)
    | Except.error _ => (⟨cleared.pending ∪ taken⟩, Except.ok none)

/-- C8: if the recognition body fails, every target id taken from the
pending set for the run is present in the pending set afterwards, and the
error is not propagated: the call returns normally. -/
theorem do_recognize_restores_pending_on_failure (st : StreamState)
    (body : Finset String → Except String (Option (List ℕ))) (e : String)
    (hfail : body st.pending = Except.error e) :
    (∀ t ∈ st.pending, t ∈ (doRecognize st body).1.pending) ∧
      ∃ v, (doRecognize st body).2 = Except.ok v := by
  unfold doRecognize
  by_cases hp : st.pending = ∅
  · rw [if_pos hp]
    exact ⟨fun t ht => ht, ⟨none, rfl⟩⟩
  · rw [if_neg hp]
    simp only [hfail]
    exact ⟨fun t ht => by simp [Finset.empty_union, ht], ⟨none, rfl⟩⟩

/-- Witness for C8: with pending set containing "T1" and a failing body,
"T1" is back in the pending set and the call returns normally. -/
theorem do_recognize_restores_pending_on_failure_witness :
    ("T1" ∈ (doRecognize ⟨{"T1"}⟩
        (fun _ => Except.error "recognition failed")).1.pending) ∧
      ∃ v, (doRecognize ⟨{"T1"}⟩
          (fun _ => Except.error "recognition failed")).2 = Except.ok v := by
  have h := do_recognize_restores_pending_on_failure ⟨{"T1"}⟩
    (fun _ => Except.error "recognition failed") "recognition failed" rfl
  exact ⟨h.1 "T1" (Finset.mem_singleton_self "T1"), h.2⟩

end FormationRec
